import Mathlib

/-!
Shallow embedding of the paginated, price-filtered item collector of
`src/pages/SearchPage.ts` and of the price-string parser of
`src/utils/PriceParser.ts`.

Prices are modelled as rationals (`ℚ`): the source manipulates JavaScript
numbers only through `parseFloat` of a digits-and-dots string and through the
order comparisons `price > 0` and `price <= maxPrice`, which the rational
model reproduces exactly on such values.

The browser is modelled as a `PageSource`: a family of pages (each a list of
`Candidate`s, i.e. the DOM item cards with their text content and href), the
per-page answer of `hasNextPage()` (its `try/catch` returns `false` both when
the next button is absent/disabled and when the lookup throws, so a `Bool`
captures every outcome), and whether the `goToNextPage()` click succeeds in
moving the browser to the next page (its `try/catch` swallows a failed click,
in which case the browser stays on the current page).
-/

namespace EbaySearch

/-- `PriceParser.parse` first strips every character that is not a digit or a
dot: `priceText.replace(/[^0-9.]/g, '')`. -/
def cleanPrice (s : String) : List Char :=
  s.data.filter fun c => c.isDigit || c == '.'

/-- Value of a digit string read left to right (the integer part of the
float literal consumed by `parseFloat`). -/
def digitsVal (ds : List Char) : Nat :=
  ds.foldl (fun n c => 10 * n + (c.toNat - 48)) 0

/-- JavaScript `parseFloat` on a string made only of digits and dots: it
consumes the longest prefix of the shape `digits`, `digits "." digits` or
`"." digits` (at least one digit overall) and ignores the rest; when no such
prefix exists the result is `NaN`, modelled as `none`. -/
def parseFloatDigitsDots (s : List Char) : Option ℚ :=
  match s.dropWhile Char.isDigit with
  | [] =>
    if s.takeWhile Char.isDigit = [] then none
    else some (digitsVal (s.takeWhile Char.isDigit) : ℚ)
  | c :: rest2 =>
    if c = '.' then
      if s.takeWhile Char.isDigit = [] ∧ rest2.takeWhile Char.isDigit = [] then none
      else some ((digitsVal (s.takeWhile Char.isDigit) : ℚ) +
        (digitsVal (rest2.takeWhile Char.isDigit) : ℚ) / (10 : ℚ) ^ (rest2.takeWhile Char.isDigit).length)
    else if s.takeWhile Char.isDigit = [] then none
    else some (digitsVal (s.takeWhile Char.isDigit) : ℚ)

namespace PriceParser

/-- `PriceParser.parse` (src/utils/PriceParser.ts, lines 13–23): the empty
string is falsy (`if (!priceText) return 0`), then the cleaned string goes
through `parseFloat`, and `NaN` is mapped to `0`. -/
def parse (priceText : String) : ℚ :=
  if priceText = "" then 0
  else
    match parseFloatDigitsDots (cleanPrice priceText) with
    | none => 0
    | some q => q

end PriceParser

/-- One item card on a search-results page, as `extractItemsFromCurrentPage`
observes it: `fails` is true when one of the awaited browser calls for this
item throws (the surrounding `try/catch` then skips the item), `priceText` is
the result of `textContent` on the price element (`none` = `null`), and `url`
is the result of `getAttribute('href')` on the link element. -/
structure Candidate where
  fails : Bool
  priceText : Option String
  url : Option String
  deriving DecidableEq, Repr

/-- `extractItemsFromCurrentPage` body for one item (src/pages/SearchPage.ts,
lines 152–177): a throwing item is skipped; `if (!priceText) continue` skips
`null` and the empty string; the candidate is kept when
`price > 0 && price <= maxPrice`; `if (url)` skips `null` and the empty
string. -/
def processItem (maxPrice : ℚ) (c : Candidate) : Option String :=
  if c.fails then none
  else
    match c.priceText with
    | none => none
    | some t =>
      if t = "" then none
      else
        if 0 < PriceParser.parse t ∧ PriceParser.parse t ≤ maxPrice then
          match c.url with
          | none => none
          | some u => if u = "" then none else some u
        else none

/-- `extractItemsFromCurrentPage` (src/pages/SearchPage.ts, lines 144–180):
the qualifying hrefs of the current page's item cards, in page order. -/
def extractItemsFromCurrentPage (maxPrice : ℚ) (items : List Candidate) : List String :=
  items.filterMap (processItem maxPrice)

/-- The browser-automation boundary of one search: `fetch p` is the list of
item cards visible on physical results page `p` (pages are numbered from 0),
`hasNext p` is what `hasNextPage()` returns there (`false` covering both the
absent/disabled button and a thrown lookup, per its `try/catch`), and
`advanceOk p` tells whether the `goToNextPage()` click actually navigates
away from page `p` (a swallowed click failure leaves the browser on `p`). -/
structure PageSource where
  fetch : Nat → List Candidate
  hasNext : Nat → Bool
  advanceOk : Nat → Bool

/-- The inner `for (const item of pageItems)` loop of `collectItemsWithPaging`
(src/pages/SearchPage.ts, lines 116–119): append items in order, breaking as
soon as `collectedUrls.length >= limit`. -/
def pushUpTo (limit : Int) (acc : List String) : List String → List String
  | [] => acc
  | x :: xs => if limit ≤ (acc.length : Int) then acc else pushUpTo limit (acc ++ [x]) xs

/-- `collectedUrls.slice(0, limit)` (src/pages/SearchPage.ts, line 136):
JavaScript `slice` clamps a non-negative end to the length and counts a
negative end from the end of the array. -/
def jsSlice0 (e : Int) (l : List α) : List α :=
  if e < 0 then l.take ((l.length : Int) + e).toNat else l.take e.toNat

/-- Observations of one run of `collectItemsWithPaging`: the collected hrefs,
the physical pages whose items were extracted (in extraction order), and how
many times `hasNextPage()` and `goToNextPage()` were invoked. -/
structure RunResult where
  urls : List String
  fetched : List Nat
  hasNextCalls : Nat
  advanceCalls : Nat
  deriving DecidableEq, Repr

/-- The `while` loop of `collectItemsWithPaging` (src/pages/SearchPage.ts,
lines 111–134). `fuel` counts the iterations still allowed by the guard
`currentPage <= config.pagination.maxPages`: `currentPage` starts at 1 and is
incremented exactly once per completed iteration, so `fuel` starts at
`maxPages` and decreases by one per iteration. `phys` is the physical page
the browser shows; a failed `goToNextPage()` click leaves it unchanged while
`currentPage` still advances. -/
def runLoop (src : PageSource) (maxPrice : ℚ) (limit : Int) :
    Nat → Nat → List String → List Nat → Nat → Nat → RunResult
  | 0, _, acc, fetched, hn, adv => ⟨acc, fetched, hn, adv⟩
  | fuel + 1, phys, acc, fetched, hn, adv =>
    if (acc.length : Int) < limit then
      if limit ≤ ((pushUpTo limit acc (extractItemsFromCurrentPage maxPrice (src.fetch phys))).length : Int) then
        ⟨pushUpTo limit acc (extractItemsFromCurrentPage maxPrice (src.fetch phys)),
         fetched ++ [phys], hn, adv⟩
      else if src.hasNext phys then
        runLoop src maxPrice limit fuel
          (if src.advanceOk phys then phys + 1 else phys)
          (pushUpTo limit acc (extractItemsFromCurrentPage maxPrice (src.fetch phys)))
          (fetched ++ [phys]) (hn + 1) (adv + 1)
      else
        ⟨pushUpTo limit acc (extractItemsFromCurrentPage maxPrice (src.fetch phys)),
         fetched ++ [phys], hn + 1, adv⟩
    else ⟨acc, fetched, hn, adv⟩

/-- One full run of `collectItemsWithPaging` (src/pages/SearchPage.ts,
lines 107–137): empty accumulator, `currentPage = 1`, browser on physical
page 0, and the final `return collectedUrls.slice(0, limit)`. `maxPages`
stands for `config.pagination.maxPages` (src/config/env.config.ts, value 10),
kept as a parameter so that runs under any configured ceiling are covered. -/
def run (src : PageSource) (maxPrice : ℚ) (limit maxPages : Int) : RunResult :=
  let r := runLoop src maxPrice limit maxPages.toNat 0 [] [] 0 0
  ⟨jsSlice0 limit r.urls, r.fetched, r.hasNextCalls, r.advanceCalls⟩

/-- The string list `collectItemsWithPaging` resolves with. -/
def collectItemsWithPaging (src : PageSource) (maxPrice : ℚ) (limit maxPages : Int) :
    List String :=
  (run src maxPrice limit maxPages).urls

/-- `config.pagination.maxPages` of src/config/env.config.ts. -/
def configMaxPages : Int := 10

/-- A source with one qualifying $5 item per page and no next page. -/
def srcOnePage : PageSource :=
  ⟨fun _ => [⟨false, some "$5", some "a"⟩], fun _ => false, fun _ => true⟩

/-- A source whose next-page button is always present but whose
`goToNextPage()` click always throws (and is swallowed), so the browser never
leaves page 0. -/
def srcClickFails : PageSource :=
  ⟨fun _ => [⟨false, some "$5", some "a"⟩], fun _ => true, fun _ => false⟩

/-- A source whose pages are empty while a next page always exists. -/
def srcEmptyPages : PageSource :=
  ⟨fun _ => [], fun _ => true, fun _ => true⟩

/-- A source whose first page already holds two qualifying items. -/
def srcTwoItems : PageSource :=
  ⟨fun _ => [⟨false, some "$5", some "p"⟩, ⟨false, some "$6", some "q"⟩],
   fun _ => true, fun _ => true⟩

/-! ### Basic lemmas about the inner for-loop and `slice` -/

theorem pushUpTo_append (limit : Int) :
    ∀ (xs acc : List String), ∃ t, pushUpTo limit acc xs ++ t = acc ++ xs := by
  intro xs
  induction xs with
  | nil => intro acc; exact ⟨[], by simp [pushUpTo]⟩
  | cons x xs ih =>
    intro acc
    by_cases h : limit ≤ (acc.length : Int)
    · exact ⟨x :: xs, by simp [pushUpTo, h]⟩
    · obtain ⟨t, ht⟩ := ih (acc ++ [x])
      refine ⟨t, ?_⟩
      rw [pushUpTo, if_neg h]
      simpa using ht

theorem pushUpTo_full (limit : Int) :
    ∀ (xs acc : List String), ((pushUpTo limit acc xs).length : Int) < limit →
      pushUpTo limit acc xs = acc ++ xs := by
  intro xs
  induction xs with
  | nil => intro acc _; simp [pushUpTo]
  | cons x xs ih =>
    intro acc h
    by_cases hle : limit ≤ (acc.length : Int)
    · rw [pushUpTo, if_pos hle] at h
      exact absurd h (not_lt.mpr hle)
    · rw [pushUpTo, if_neg hle] at h ⊢
      simpa using ih (acc ++ [x]) h

theorem mem_pushUpTo (limit : Int) :
    ∀ (xs acc : List String) (u : String), u ∈ pushUpTo limit acc xs → u ∈ acc ∨ u ∈ xs := by
  intro xs
  induction xs with
  | nil => intro acc u h; exact Or.inl (by simpa [pushUpTo] using h)
  | cons x xs ih =>
    intro acc u h
    rw [pushUpTo] at h
    by_cases hle : limit ≤ (acc.length : Int)
    · rw [if_pos hle] at h
      exact Or.inl h
    · rw [if_neg hle] at h
      rcases ih _ _ h with h1 | h1
      · rcases List.mem_append.mp h1 with h2 | h2
        · exact Or.inl h2
        · simp only [List.mem_singleton] at h2
          subst h2
          exact Or.inr (List.mem_cons_self _ _)
      · exact Or.inr (List.mem_cons_of_mem _ h1)

theorem jsSlice0_append (e : Int) (l : List α) : ∃ t, jsSlice0 e l ++ t = l := by
  unfold jsSlice0
  split
  · exact ⟨_, List.take_append_drop _ _⟩
  · exact ⟨_, List.take_append_drop _ _⟩

theorem mem_jsSlice0 (e : Int) (l : List α) (u : α) (hu : u ∈ jsSlice0 e l) : u ∈ l := by
  obtain ⟨t, ht⟩ := jsSlice0_append e l
  rw [← ht]
  exact List.mem_append_left t hu

theorem jsSlice0_length (e : Int) (he : 0 ≤ e) (l : List α) :
    ((jsSlice0 e l).length : Int) ≤ e := by
  unfold jsSlice0
  rw [if_neg (not_lt.mpr he)]
  simp only [List.length_take]
  omega

theorem jsSlice0_of_length_le (e : Int) (l : List α) (h : (l.length : Int) ≤ e) :
    jsSlice0 e l = l := by
  unfold jsSlice0
  rw [if_neg (by omega)]
  exact List.take_of_length_le (by omega)

theorem jsSlice0_nil (e : Int) : jsSlice0 e ([] : List α) = [] := by
  unfold jsSlice0
  split <;> simp

/-! ### Lemmas about the paging loop -/

theorem runLoop_zero (src : PageSource) (mp : ℚ) (limit : Int) (phys : Nat)
    (acc : List String) (fetched : List Nat) (hn adv : Nat) :
    runLoop src mp limit 0 phys acc fetched hn adv = ⟨acc, fetched, hn, adv⟩ := rfl

theorem runLoop_stuck (src : PageSource) (mp : ℚ) (limit : Int) (fuel phys : Nat)
    (acc : List String) (fetched : List Nat) (hn adv : Nat)
    (h : limit ≤ (acc.length : Int)) :
    runLoop src mp limit fuel phys acc fetched hn adv = ⟨acc, fetched, hn, adv⟩ := by
  cases fuel with
  | zero => rw [runLoop]
  | succ n => rw [runLoop, if_neg (not_lt.mpr h)]

theorem run_urls (src : PageSource) (mp : ℚ) (limit maxPages : Int) :
    (run src mp limit maxPages).urls
      = jsSlice0 limit (runLoop src mp limit maxPages.toNat 0 [] [] 0 0).urls := rfl

theorem run_fetched (src : PageSource) (mp : ℚ) (limit maxPages : Int) :
    (run src mp limit maxPages).fetched
      = (runLoop src mp limit maxPages.toNat 0 [] [] 0 0).fetched := rfl

theorem run_hasNextCalls (src : PageSource) (mp : ℚ) (limit maxPages : Int) :
    (run src mp limit maxPages).hasNextCalls
      = (runLoop src mp limit maxPages.toNat 0 [] [] 0 0).hasNextCalls := rfl

theorem run_advanceCalls (src : PageSource) (mp : ℚ) (limit maxPages : Int) :
    (run src mp limit maxPages).advanceCalls
      = (runLoop src mp limit maxPages.toNat 0 [] [] 0 0).advanceCalls := rfl

/-- One loop step in which the page's items push the accumulator to the
target: the loop breaks at `if (collectedUrls.length >= limit) break`. -/
theorem runLoop_step_target (src : PageSource) (mp : ℚ) (limit : Int)
    (fuel phys : Nat) (acc : List String) (fetched : List Nat) (hn adv : Nat)
    (h1 : (acc.length : Int) < limit)
    (h2 : limit ≤ ((pushUpTo limit acc (extractItemsFromCurrentPage mp (src.fetch phys))).length : Int)) :
    runLoop src mp limit (fuel + 1) phys acc fetched hn adv
      = ⟨pushUpTo limit acc (extractItemsFromCurrentPage mp (src.fetch phys)),
         fetched ++ [phys], hn, adv⟩ := by
  rw [runLoop, if_pos h1, if_pos h2]

/-- One loop step below target in which `hasNextPage()` answers `false`
(button missing or disabled, or the lookup threw): the loop breaks. -/
theorem runLoop_step_noNext (src : PageSource) (mp : ℚ) (limit : Int)
    (fuel phys : Nat) (acc : List String) (fetched : List Nat) (hn adv : Nat)
    (h1 : (acc.length : Int) < limit)
    (h2 : ¬ limit ≤ ((pushUpTo limit acc (extractItemsFromCurrentPage mp (src.fetch phys))).length : Int))
    (h3 : src.hasNext phys = false) :
    runLoop src mp limit (fuel + 1) phys acc fetched hn adv
      = ⟨pushUpTo limit acc (extractItemsFromCurrentPage mp (src.fetch phys)),
         fetched ++ [phys], hn + 1, adv⟩ := by
  rw [runLoop, if_pos h1, if_neg h2]
  simp [h3]

/-- One loop step below target in which `hasNextPage()` answers `true`:
`goToNextPage()` is invoked and the loop continues, on the next physical page
when the click navigated and on the same physical page when the click threw
(the `catch` swallows the failure and `currentPage` is still incremented). -/
theorem runLoop_step_next (src : PageSource) (mp : ℚ) (limit : Int)
    (fuel phys : Nat) (acc : List String) (fetched : List Nat) (hn adv : Nat)
    (h1 : (acc.length : Int) < limit)
    (h2 : ¬ limit ≤ ((pushUpTo limit acc (extractItemsFromCurrentPage mp (src.fetch phys))).length : Int))
    (h3 : src.hasNext phys = true) :
    runLoop src mp limit (fuel + 1) phys acc fetched hn adv
      = runLoop src mp limit fuel (if src.advanceOk phys then phys + 1 else phys)
          (pushUpTo limit acc (extractItemsFromCurrentPage mp (src.fetch phys)))
          (fetched ++ [phys]) (hn + 1) (adv + 1) := by
  rw [runLoop, if_pos h1, if_neg h2]
  simp [h3]

/-- The `fetched`, `hasNextCalls` and `advanceCalls` fields are pure
accumulators: a run started with arbitrary accumulator contents is the run
started empty, shifted. -/
theorem runLoop_shift (src : PageSource) (mp : ℚ) (limit : Int) :
    ∀ (fuel phys : Nat) (acc : List String) (fetched : List Nat) (hn adv : Nat),
      runLoop src mp limit fuel phys acc fetched hn adv =
        ⟨(runLoop src mp limit fuel phys acc [] 0 0).urls,
         fetched ++ (runLoop src mp limit fuel phys acc [] 0 0).fetched,
         hn + (runLoop src mp limit fuel phys acc [] 0 0).hasNextCalls,
         adv + (runLoop src mp limit fuel phys acc [] 0 0).advanceCalls⟩ := by
  intro fuel
  induction fuel with
  | zero =>
    intro phys acc fetched hn adv
    simp [runLoop]
  | succ fuel ih =>
    intro phys acc fetched hn adv
    by_cases h1 : (acc.length : Int) < limit
    · by_cases h2 : limit ≤
        ((pushUpTo limit acc (extractItemsFromCurrentPage mp (src.fetch phys))).length : Int)
      · rw [runLoop_step_target src mp limit fuel phys acc fetched hn adv h1 h2,
          runLoop_step_target src mp limit fuel phys acc [] 0 0 h1 h2]
        simp
      · cases h3 : src.hasNext phys
        · rw [runLoop_step_noNext src mp limit fuel phys acc fetched hn adv h1 h2 h3,
            runLoop_step_noNext src mp limit fuel phys acc [] 0 0 h1 h2 h3]
          simp
        · rw [runLoop_step_next src mp limit fuel phys acc fetched hn adv h1 h2 h3,
            runLoop_step_next src mp limit fuel phys acc [] 0 0 h1 h2 h3,
            ih, ih (if src.advanceOk phys then phys + 1 else phys)
              (pushUpTo limit acc (extractItemsFromCurrentPage mp (src.fetch phys)))
              ([] ++ [phys]) (0 + 1) (0 + 1)]
          simp only [RunResult.mk.injEq, List.append_assoc, List.singleton_append,
            List.nil_append, true_and]
          omega
    · rw [runLoop_stuck src mp limit _ phys acc fetched hn adv (not_lt.mp h1),
        runLoop_stuck src mp limit _ phys acc [] 0 0 (not_lt.mp h1)]
      simp

/-- At most one page's items are extracted per remaining loop iteration. -/
theorem runLoop_fetched_len (src : PageSource) (mp : ℚ) (limit : Int) :
    ∀ (fuel phys : Nat) (acc : List String) (fetched : List Nat) (hn adv : Nat),
      (runLoop src mp limit fuel phys acc fetched hn adv).fetched.length
        ≤ fetched.length + fuel := by
  intro fuel
  induction fuel with
  | zero => intro phys acc fetched hn adv; simp [runLoop]
  | succ fuel ih =>
    intro phys acc fetched hn adv
    by_cases h1 : (acc.length : Int) < limit
    · by_cases h2 : limit ≤
        ((pushUpTo limit acc (extractItemsFromCurrentPage mp (src.fetch phys))).length : Int)
      · rw [runLoop_step_target src mp limit fuel phys acc fetched hn adv h1 h2]
        simp only [List.length_append, List.length_singleton]
        omega
      · cases h3 : src.hasNext phys
        · rw [runLoop_step_noNext src mp limit fuel phys acc fetched hn adv h1 h2 h3]
          simp only [List.length_append, List.length_singleton]
          omega
        · rw [runLoop_step_next src mp limit fuel phys acc fetched hn adv h1 h2 h3]
          refine le_trans (ih _ _ _ _ _) ?_
          simp only [List.length_append, List.length_singleton]
          omega
    · rw [runLoop_stuck src mp limit _ phys acc fetched hn adv (not_lt.mp h1)]
      simp

/-- Every collected string is an accumulator entry or a qualifying item of
some physical page. -/
theorem mem_runLoop_urls (src : PageSource) (mp : ℚ) (limit : Int) :
    ∀ (fuel phys : Nat) (acc : List String) (fetched : List Nat) (hn adv : Nat) (u : String),
      u ∈ (runLoop src mp limit fuel phys acc fetched hn adv).urls →
      u ∈ acc ∨ ∃ p, u ∈ extractItemsFromCurrentPage mp (src.fetch p) := by
  intro fuel
  induction fuel with
  | zero =>
    intro phys acc fetched hn adv u h
    exact Or.inl (by simpa [runLoop] using h)
  | succ fuel ih =>
    intro phys acc fetched hn adv u h
    by_cases h1 : (acc.length : Int) < limit
    · by_cases h2 : limit ≤
        ((pushUpTo limit acc (extractItemsFromCurrentPage mp (src.fetch phys))).length : Int)
      · rw [runLoop_step_target src mp limit fuel phys acc fetched hn adv h1 h2] at h
        rcases mem_pushUpTo limit _ _ u h with h' | h'
        · exact Or.inl h'
        · exact Or.inr ⟨phys, h'⟩
      · cases h3 : src.hasNext phys
        · rw [runLoop_step_noNext src mp limit fuel phys acc fetched hn adv h1 h2 h3] at h
          rcases mem_pushUpTo limit _ _ u h with h' | h'
          · exact Or.inl h'
          · exact Or.inr ⟨phys, h'⟩
        · rw [runLoop_step_next src mp limit fuel phys acc fetched hn adv h1 h2 h3] at h
          rcases ih _ _ _ _ _ _ h with h' | h'
          · rcases mem_pushUpTo limit _ _ u h' with h'' | h''
            · exact Or.inl h''
            · exact Or.inr ⟨phys, h''⟩
          · exact Or.inr h'
    · rw [runLoop_stuck src mp limit _ phys acc fetched hn adv (not_lt.mp h1)] at h
      exact Or.inl h

/-- The accumulated strings are a prefix of the qualifying items of the
extracted pages, concatenated in extraction order. -/
theorem runLoop_urls_order (src : PageSource) (mp : ℚ) (limit : Int) :
    ∀ (fuel phys : Nat) (acc : List String),
      ∃ t, (runLoop src mp limit fuel phys acc [] 0 0).urls ++ t
        = acc ++ ((runLoop src mp limit fuel phys acc [] 0 0).fetched.map
            fun p => extractItemsFromCurrentPage mp (src.fetch p)).flatten := by
  intro fuel
  induction fuel with
  | zero =>
    intro phys acc
    exact ⟨[], by simp [runLoop]⟩
  | succ fuel ih =>
    intro phys acc
    by_cases h1 : (acc.length : Int) < limit
    · by_cases h2 : limit ≤
        ((pushUpTo limit acc (extractItemsFromCurrentPage mp (src.fetch phys))).length : Int)
      · obtain ⟨t, ht⟩ := pushUpTo_append limit (extractItemsFromCurrentPage mp (src.fetch phys)) acc
        rw [runLoop_step_target src mp limit fuel phys acc [] 0 0 h1 h2]
        exact ⟨t, by simpa using ht⟩
      · cases h3 : src.hasNext phys
        · obtain ⟨t, ht⟩ := pushUpTo_append limit (extractItemsFromCurrentPage mp (src.fetch phys)) acc
          rw [runLoop_step_noNext src mp limit fuel phys acc [] 0 0 h1 h2 h3]
          exact ⟨t, by simpa using ht⟩
        · rw [runLoop_step_next src mp limit fuel phys acc [] 0 0 h1 h2 h3,
            runLoop_shift src mp limit fuel
              (if src.advanceOk phys then phys + 1 else phys)
              (pushUpTo limit acc (extractItemsFromCurrentPage mp (src.fetch phys)))
              ([] ++ [phys]) (0 + 1) (0 + 1),
            pushUpTo_full limit _ acc (by omega)]
          obtain ⟨t, ht⟩ := ih (if src.advanceOk phys then phys + 1 else phys)
            (acc ++ extractItemsFromCurrentPage mp (src.fetch phys))
          refine ⟨t, ?_⟩
          simp only [List.nil_append, List.singleton_append, List.map_cons,
            List.flatten_cons, ← List.append_assoc] at ht ⊢
          exact ht
    · rw [runLoop_stuck src mp limit _ phys acc [] 0 0 (not_lt.mp h1)]
      exact ⟨[], by simp⟩

/-- A run whose request can do no useful work (`limit ≤ 0`, or a page ceiling
below 1 so that the `while` guard `currentPage <= maxPages` fails at once)
returns the empty result, extracts no page and calls neither `hasNextPage()`
nor `goToNextPage()`. -/
theorem run_trivial (src : PageSource) (mp : ℚ) (limit maxPages : Int)
    (h : limit ≤ 0 ∨ maxPages < 1) :
    run src mp limit maxPages = ⟨[], [], 0, 0⟩ := by
  have hloop : runLoop src mp limit maxPages.toNat 0 [] [] 0 0 = ⟨[], [], 0, 0⟩ := by
    rcases h with h | h
    · exact runLoop_stuck src mp limit _ 0 [] [] 0 0 (by simpa using h)
    · have hz : maxPages.toNat = 0 := by omega
      rw [hz, runLoop]
  unfold run
  rw [hloop]
  simp [jsSlice0_nil]

/-! ### Lemmas about the price parser and the per-item filter -/

theorem parseFloatDigitsDots_nonneg (l : List Char) (q : ℚ)
    (h : parseFloatDigitsDots l = some q) : 0 ≤ q := by
  unfold parseFloatDigitsDots at h
  split at h
  · split at h
    · exact absurd h (by simp)
    · rw [Option.some.injEq] at h
      rw [← h]
      positivity
  · split at h
    · split at h
      · exact absurd h (by simp)
      · rw [Option.some.injEq] at h
        rw [← h]
        positivity
    · split at h
      · exact absurd h (by simp)
      · rw [Option.some.injEq] at h
        rw [← h]
        positivity

theorem parse_nonneg (s : String) : 0 ≤ PriceParser.parse s := by
  unfold PriceParser.parse
  by_cases hs : s = ""
  · rw [if_pos hs]
  · rw [if_neg hs]
    rcases hpq : parseFloatDigitsDots (cleanPrice s) with _ | q
    · exact le_refl 0
    · exact parseFloatDigitsDots_nonneg _ q hpq

theorem takeWhile_isDigit_of_dots (l : List Char) (h : ∀ c ∈ l, c = '.') :
    l.takeWhile Char.isDigit = [] := by
  cases l with
  | nil => rfl
  | cons c l' =>
    have hc : c = '.' := h c (by simp)
    subst hc
    rw [List.takeWhile_cons, if_neg (by decide)]

/-- On a cleaned string holding only dots, `parseFloat` finds no digit and
yields `NaN`. -/
theorem parseFloatDigitsDots_of_dots (l : List Char) (h : ∀ c ∈ l, c = '.') :
    parseFloatDigitsDots l = none := by
  unfold parseFloatDigitsDots
  cases l with
  | nil => rfl
  | cons c l' =>
    have hc : c = '.' := h c (by simp)
    subst hc
    have h2 : List.takeWhile Char.isDigit l' = [] :=
      takeWhile_isDigit_of_dots l' (fun c hc => h c (List.mem_cons_of_mem _ hc))
    rw [List.dropWhile_cons, if_neg (by decide), takeWhile_isDigit_of_dots _ h]
    simp [h2]

theorem parse_of_no_digit (s : String) (h : ∀ c ∈ s.data, c.isDigit = false) :
    PriceParser.parse s = 0 := by
  unfold PriceParser.parse
  by_cases hs : s = ""
  · rw [if_pos hs]
  · rw [if_neg hs, parseFloatDigitsDots_of_dots]
    intro c hc
    obtain ⟨hmem, hpass⟩ := List.mem_filter.mp hc
    have hd := h c hmem
    simpa [hd] using hpass

/-- Inversion of the per-item body of `extractItemsFromCurrentPage`: a
collected href belongs to a non-throwing candidate whose price text parses
strictly above 0 and at most `maxPrice`. -/
theorem processItem_some (mp : ℚ) (c : Candidate) (u : String)
    (h : processItem mp c = some u) :
    c.url = some u ∧
      ∃ t, c.priceText = some t ∧ 0 < PriceParser.parse t ∧ PriceParser.parse t ≤ mp := by
  obtain ⟨f, pt, url⟩ := c
  cases f with
  | true => simp [processItem] at h
  | false =>
    cases pt with
    | none => simp [processItem] at h
    | some t =>
      by_cases ht : t = ""
      · simp [processItem, ht] at h
      · by_cases hp : 0 < PriceParser.parse t ∧ PriceParser.parse t ≤ mp
        · cases url with
          | none => simp [processItem, ht, hp] at h
          | some v =>
            by_cases hv : v = ""
            · simp [processItem, ht, hp, hv] at h
            · have hv2 : processItem mp ⟨false, some t, some v⟩ = some v := by
                simp [processItem, ht, hp, hv]
              rw [hv2, Option.some.injEq] at h
              subst h
              exact ⟨rfl, t, rfl, hp.1, hp.2⟩
        · simp [processItem, ht, hp] at h

/-! ### The claims -/

/-- C1: for every page source and every request with a non-negative target
count, the sequence `collectItemsWithPaging` returns has length at most
`limit`, however many qualifying candidates the pages contain. -/
theorem collect_length_le_target (src : PageSource) (mp : ℚ) (limit maxPages : Int)
    (h : 0 ≤ limit) :
    ((collectItemsWithPaging src mp limit maxPages).length : Int) ≤ limit :=
  jsSlice0_length limit h _

/-- Witness for C1 at `limit = 2` over a source with plenty of items. -/
theorem collect_length_le_target_witness :
    (0 : Int) ≤ 2 ∧ ((collectItemsWithPaging srcTwoItems 10 2 3).length : Int) ≤ 2 :=
  ⟨by decide, collect_length_le_target srcTwoItems 10 2 3 (by decide)⟩

/-- C2: every identifier in the collector's result comes from a candidate of
some fetched page whose price text parses to a price `p` with
`0 < p ≤ maxPrice`; in particular a candidate parsing to price 0 is never
accepted. -/
theorem collect_price_filter (src : PageSource) (mp : ℚ) (limit maxPages : Int)
    (u : String) (hu : u ∈ (run src mp limit maxPages).urls) :
    ∃ p c, c ∈ src.fetch p ∧ c.url = some u ∧
      ∃ t, c.priceText = some t ∧ 0 < PriceParser.parse t ∧ PriceParser.parse t ≤ mp := by
  have hu' : u ∈ (runLoop src mp limit maxPages.toNat 0 [] [] 0 0).urls :=
    mem_jsSlice0 limit _ u hu
  rcases mem_runLoop_urls src mp limit _ _ _ _ _ _ _ hu' with h | ⟨p, hp⟩
  · simp at h
  · obtain ⟨c, hc, hcu⟩ := List.mem_filterMap.mp hp
    obtain ⟨h1, t, h2, h3, h4⟩ := processItem_some mp c u hcu
    exact ⟨p, c, hc, h1, t, h2, h3, h4⟩

/-- Witness for C2: `"a"` is collected from `srcOnePage`, so a qualifying
candidate for it exists. -/
theorem collect_price_filter_witness :
    "a" ∈ (run srcOnePage 10 3 2).urls ∧
    ∃ p c, c ∈ srcOnePage.fetch p ∧ c.url = some "a" ∧
      ∃ t, c.priceText = some t ∧ 0 < PriceParser.parse t ∧ PriceParser.parse t ≤ 10 :=
  ⟨by decide, collect_price_filter srcOnePage 10 3 2 "a" (by decide)⟩

/-- C3 counterexample: with `maxPages = 1`, a first page with no qualifying
candidate and a visible next-page button, the code still calls
`hasNextPage()`/`goToNextPage()` once before the `while` guard stops it
(the page ceiling is only checked at the top of the loop), refuting
"without calling advanceToNextPage"; the result is `[]` and the second
page's items are never extracted. -/
theorem pageCeiling_advance_still_called :
    (run srcEmptyPages 10 1 1).advanceCalls = 1 ∧
    (run srcEmptyPages 10 1 1).urls = [] ∧
    (run srcEmptyPages 10 1 1).fetched = [0] := by decide

/-- C3 (amended): with `maxPages = 1` and the accumulator still below a
positive target after page 0, the collector returns exactly the items
accepted from page 0, extracts no second page, and invokes `goToNextPage()`
at most once (instead of not at all). -/
theorem pageCeiling_returns_accumulated (src : PageSource) (mp : ℚ) (limit : Int)
    (h0 : 0 < limit)
    (h1 : ((pushUpTo limit [] (extractItemsFromCurrentPage mp (src.fetch 0))).length : Int) < limit) :
    (run src mp limit 1).urls = pushUpTo limit [] (extractItemsFromCurrentPage mp (src.fetch 0)) ∧
    (run src mp limit 1).fetched = [0] ∧
    (run src mp limit 1).advanceCalls ≤ 1 := by
  have h0' : ((([] : List String)).length : Int) < limit := by simpa using h0
  have h2 : ¬ limit ≤
      ((pushUpTo limit [] (extractItemsFromCurrentPage mp (src.fetch 0))).length : Int) :=
    not_le.mpr h1
  cases h3 : src.hasNext 0 with
  | false =>
    have hloop : runLoop src mp limit (1 : Int).toNat 0 [] [] 0 0
        = ⟨pushUpTo limit [] (extractItemsFromCurrentPage mp (src.fetch 0)), [0], 1, 0⟩ := by
      have hs := runLoop_step_noNext src mp limit 0 0 [] [] 0 0 h0' h2 h3
      simpa using hs
    refine ⟨?_, ?_, ?_⟩
    · rw [run_urls, hloop]
      exact jsSlice0_of_length_le limit _ (le_of_lt h1)
    · rw [run_fetched, hloop]
    · rw [run_advanceCalls, hloop]
      exact Nat.zero_le 1
  | true =>
    have hloop : runLoop src mp limit (1 : Int).toNat 0 [] [] 0 0
        = ⟨pushUpTo limit [] (extractItemsFromCurrentPage mp (src.fetch 0)), [0], 1, 1⟩ := by
      have hs := runLoop_step_next src mp limit 0 0 [] [] 0 0 h0' h2 h3
      rw [show (1 : Int).toNat = 0 + 1 from rfl, hs, runLoop_zero]
      simp
    refine ⟨?_, ?_, ?_⟩
    · rw [run_urls, hloop]
      exact jsSlice0_of_length_le limit _ (le_of_lt h1)
    · rw [run_fetched, hloop]
    · rw [run_advanceCalls, hloop]

/-- Witness for amended C3: empty first page, next button present, `limit = 3`. -/
theorem pageCeiling_returns_accumulated_witness :
    (run srcEmptyPages 10 3 1).urls
        = pushUpTo 3 [] (extractItemsFromCurrentPage 10 (srcEmptyPages.fetch 0)) ∧
    (run srcEmptyPages 10 3 1).fetched = [0] ∧
    (run srcEmptyPages 10 3 1).advanceCalls ≤ 1 :=
  pageCeiling_returns_accumulated srcEmptyPages 10 3 (by decide) (by decide)

/-- C4 counterexample: when `goToNextPage()`'s click throws, the failure is
swallowed and the loop keeps going instead of terminating: physical page 0 is
extracted twice (`fetched = [0, 0]`) and its item is even collected twice,
refuting "treated identically to no next page" and "no page is processed
twice". -/
theorem advance_failure_page_processed_twice :
    (run srcClickFails 10 2 10).fetched = [0, 0] ∧
    (run srcClickFails 10 2 10).urls = ["a", "a"] := by decide

/-- C4 (amended): a failure of the `hasNextPage()` availability check is
treated identically to "no next page" — the loop terminates normally with the
partial result and (the embedding being total) no exception escapes; a failed
`goToNextPage()` click is also swallowed, but the loop then continues and
re-processes the same physical page. -/
theorem advance_failure_swallowed (src : PageSource) (mp : ℚ) (limit : Int)
    (fuel phys : Nat) (acc : List String) (fetched : List Nat) (hn adv : Nat)
    (h1 : (acc.length : Int) < limit)
    (h2 : ((pushUpTo limit acc (extractItemsFromCurrentPage mp (src.fetch phys))).length : Int) < limit) :
    (src.hasNext phys = false →
      runLoop src mp limit (fuel + 1) phys acc fetched hn adv
        = ⟨pushUpTo limit acc (extractItemsFromCurrentPage mp (src.fetch phys)),
           fetched ++ [phys], hn + 1, adv⟩) ∧
    (src.hasNext phys = true → src.advanceOk phys = false →
      runLoop src mp limit (fuel + 1) phys acc fetched hn adv
        = runLoop src mp limit fuel phys
            (pushUpTo limit acc (extractItemsFromCurrentPage mp (src.fetch phys)))
            (fetched ++ [phys]) (hn + 1) (adv + 1)) := by
  constructor
  · intro h3
    exact runLoop_step_noNext src mp limit fuel phys acc fetched hn adv h1 (not_le.mpr h2) h3
  · intro h3 h4
    rw [runLoop_step_next src mp limit fuel phys acc fetched hn adv h1 (not_le.mpr h2) h3,
      if_neg (by simp [h4])]

/-- Witness for amended C4: on `srcClickFails` the failed click keeps the
loop on physical page 0. -/
theorem advance_failure_swallowed_witness :
    runLoop srcClickFails 10 5 (1 + 1) 0 [] [] 0 0
      = runLoop srcClickFails 10 5 1 0
          (pushUpTo 5 [] (extractItemsFromCurrentPage 10 (srcClickFails.fetch 0)))
          ([] ++ [0]) (0 + 1) (0 + 1) :=
  (advance_failure_swallowed srcClickFails 10 5 1 0 [] [] 0 0
    (by decide) (by decide)).2 (by decide) (by decide)

/-- C5 counterexample: at `targetCount = 0` (a configuration the spec says
must raise a ConfigurationError before any page is fetched) the code raises
nothing: `collectItemsWithPaging` has no validation and resolves normally
with the empty result — the embedding of this path is a total function
because the source path `limit ≤ 0` reaches no awaited call that could throw
— even though page 0 holds a qualifying candidate. -/
theorem config_error_never_raised :
    run srcOnePage 10 0 10 = ⟨[], [], 0, 0⟩ ∧
    extractItemsFromCurrentPage 10 (srcOnePage.fetch 0) = ["a"] := by decide

/-- C5 (amended): for every request with `targetCount ≤ 0` or `maxPages < 1`
the collector returns the empty result immediately — no page is extracted,
`hasNextPage()`/`goToNextPage()` are never invoked, and no error is surfaced
(the run resolves normally). -/
theorem invalid_config_returns_empty (src : PageSource) (mp : ℚ) (limit maxPages : Int)
    (h : limit ≤ 0 ∨ maxPages < 1) :
    run src mp limit maxPages = ⟨[], [], 0, 0⟩ :=
  run_trivial src mp limit maxPages h

/-- Witness for amended C5 at `maxPages = 0`. -/
theorem invalid_config_returns_empty_witness :
    run srcOnePage 10 4 0 = ⟨[], [], 0, 0⟩ :=
  invalid_config_returns_empty srcOnePage 10 4 0 (Or.inr (by decide))

/-- C6: for every page source and every request with `maxPages ≥ 1`, the
collector extracts candidates from at most `maxPages` pages. -/
theorem collect_fetches_at_most_maxPages (src : PageSource) (mp : ℚ)
    (limit maxPages : Int) (h : 1 ≤ maxPages) :
    (((run src mp limit maxPages).fetched.length : Int)) ≤ maxPages := by
  have hb := runLoop_fetched_len src mp limit maxPages.toNat 0 [] [] 0 0
  rw [run_fetched]
  simp only [List.length_nil, Nat.zero_add] at hb
  omega

/-- Witness for C6 over a source with endless pages and `maxPages = 3`. -/
theorem collect_fetches_at_most_maxPages_witness :
    (1 : Int) ≤ 3 ∧ (((run srcEmptyPages 10 9 3).fetched.length : Int)) ≤ 3 :=
  ⟨by decide, collect_fetches_at_most_maxPages srcEmptyPages 10 9 3 (by decide)⟩

/-- C7: the collected identifiers are a prefix of the concatenation, in
extraction order, of each fetched page's qualifying items — so identifiers of
an earlier-fetched page precede those of later pages and in-page order is
kept. -/
theorem collect_order_preserved (src : PageSource) (mp : ℚ) (limit maxPages : Int) :
    ∃ t, (run src mp limit maxPages).urls ++ t
      = ((run src mp limit maxPages).fetched.map
          fun p => extractItemsFromCurrentPage mp (src.fetch p)).flatten := by
  obtain ⟨t1, ht1⟩ := runLoop_urls_order src mp limit maxPages.toNat 0 []
  obtain ⟨t0, ht0⟩ :=
    jsSlice0_append limit (runLoop src mp limit maxPages.toNat 0 [] [] 0 0).urls
  refine ⟨t0 ++ t1, ?_⟩
  rw [run_urls, run_fetched, ← List.append_assoc, ht0]
  simpa using ht1

/-- C8: a loop step that drives the accumulator up to the target returns
immediately after that page: the page's accepted items are appended, no
further page is extracted, and neither `hasNextPage()` nor `goToNextPage()`
is invoked from that point on. -/
theorem target_reached_stops_immediately (src : PageSource) (mp : ℚ) (limit : Int)
    (fuel phys : Nat) (acc : List String) (fetched : List Nat) (hn adv : Nat)
    (h1 : (acc.length : Int) < limit)
    (h2 : limit ≤ ((pushUpTo limit acc (extractItemsFromCurrentPage mp (src.fetch phys))).length : Int)) :
    runLoop src mp limit (fuel + 1) phys acc fetched hn adv
      = ⟨pushUpTo limit acc (extractItemsFromCurrentPage mp (src.fetch phys)),
         fetched ++ [phys], hn, adv⟩ :=
  runLoop_step_target src mp limit fuel phys acc fetched hn adv h1 h2

/-- Witness for C8, scenario C of the spec: `targetCount = 1` and a first
page holding items priced 5 (`"p"`) and 6 (`"q"`) under the ceiling — the
result is exactly `["p"]` and `goToNextPage()` is never called. -/
theorem target_reached_stops_immediately_witness :
    runLoop srcTwoItems 10 1 (4 + 1) 0 [] [] 0 0 = ⟨["p"], [0], 0, 0⟩ ∧
    (run srcTwoItems 10 1 5).urls = ["p"] ∧
    (run srcTwoItems 10 1 5).advanceCalls = 0 :=
  ⟨(target_reached_stops_immediately srcTwoItems 10 1 4 0 [] [] 0 0
      (by decide) (by decide)).trans (by decide),
   by decide, by decide⟩

/-- C9: `PriceParser.parse` never returns a negative value, returns exactly 0
on the empty string, and returns exactly 0 on any string containing no
decimal digit (the "unknown/unparseable" encoding). -/
theorem parse_nonneg_and_unknown_zero :
    (∀ s : String, 0 ≤ PriceParser.parse s) ∧
    PriceParser.parse "" = 0 ∧
    ∀ s : String, (∀ c ∈ s.data, c.isDigit = false) → PriceParser.parse s = 0 :=
  ⟨parse_nonneg, rfl, parse_of_no_digit⟩

/-- Witness for C9 on a digit-free string and on a dollar amount. -/
theorem parse_nonneg_and_unknown_zero_witness :
    PriceParser.parse "Out of stock!" = 0 ∧ 0 ≤ PriceParser.parse "US $1,234.56" :=
  ⟨parse_nonneg_and_unknown_zero.2.2 "Out of stock!" (by decide),
   parse_nonneg_and_unknown_zero.1 "US $1,234.56"⟩

/-- C10: invoked with `limit ≤ 0`, the collector returns the empty sequence,
extracts no page, never invokes `hasNextPage()` or `goToNextPage()`, and
raises no error (the run resolves normally with `[]`). -/
theorem nonpositive_limit_returns_empty (src : PageSource) (mp : ℚ)
    (limit maxPages : Int) (h : limit ≤ 0) :
    run src mp limit maxPages = ⟨[], [], 0, 0⟩ :=
  run_trivial src mp limit maxPages (Or.inl h)

/-- Witness for C10 at `limit = -2` over a source with qualifying items. -/
theorem nonpositive_limit_returns_empty_witness :
    run srcOnePage 10 (-2) 7 = ⟨[], [], 0, 0⟩ :=
  nonpositive_limit_returns_empty srcOnePage 10 (-2) 7 (by decide)

end EbaySearch
